import Mathlib

/-!
Shallow embedding of simulation_results/plotter.py.

The script reads stdout.txt, locates the exact header line
"Capturing FFT output (frequency domain):\n" with list.index, scans to the
first blank line "\n" after it, parses each block line by substring search
(str.index) and Python int conversions, and plots the three parallel lists
bins / real / imag.  A log line is modelled as the list of its characters
(including the trailing newline, as Python readlines yields).
-/

namespace FFTPlotter

/-- One line of the log file, as the list of its characters. -/
abbrev Line := List Char

/-- The exact header marker searched by lines.index in plotter.py line 8. -/
def headerLine : Line := "Capturing FFT output (frequency domain):\n".toList

/-- The header text without its trailing newline. -/
def hdrBody : Line := "Capturing FFT output (frequency domain):".toList

/-- The blank line terminating the FFT block (plotter.py line 9). -/
def nlLine : Line := "\n".toList

def binTok : Line := "Bin[".toList

def rbTok : Line := "]".toList

def realTok : Line := "Real=".toList

def imagTok : Line := "Imag=".toList

def spTok : Line := " ".toList

/-- Does pat occur at the very start of s? -/
def startsWith : List Char → List Char → Bool
  | [], _ => true
  | _ :: _, [] => false
  | p :: ps, c :: cs => p == c && startsWith ps cs

/-- Python str.index: index of the first occurrence of pat as a contiguous
substring of s; none models the uncaught ValueError. -/
def firstIdx? (pat : List Char) : List Char → Option Nat
  | [] => if startsWith pat [] then some 0 else none
  | c :: s => if startsWith pat (c :: s) then some 0 else (firstIdx? pat s).map (· + 1)

/-- Python list.index: index of the first element equal to x; none models the
uncaught ValueError. -/
def elemIdx? (x : Line) : List Line → Option Nat
  | [] => none
  | y :: ys => if y = x then some 0 else (elemIdx? x ys).map (· + 1)

/-- Python str whitespace, as stripped by int(). -/
def isWS (c : Char) : Bool :=
  c == ' ' || c == '\t' || c == '\n' || c == '\r' || c == '\x0b' || c == '\x0c'

def stripWS (s : List Char) : List Char :=
  ((s.dropWhile isWS).reverse.dropWhile isWS).reverse

/-- Value of one digit character in the given base, as Python int() accepts. -/
def digitVal? (base : Nat) (c : Char) : Option Nat :=
  let v? : Option Nat :=
    if '0' ≤ c ∧ c ≤ '9' then some (c.toNat - '0'.toNat)
    else if 'a' ≤ c ∧ c ≤ 'z' then some (c.toNat - 'a'.toNat + 10)
    else if 'A' ≤ c ∧ c ≤ 'Z' then some (c.toNat - 'A'.toNat + 10)
    else none
  match v? with
  | some d => if d < base then some d else none
  | none => none

/-- Numeric value of a digit string (most significant first). -/
def natVal (base : Nat) (s : List Char) : Nat :=
  s.foldl (fun a c => a * base + (digitVal? base c).getD 0) 0

def stripHexPrefix : List Char → List Char
  | '0' :: 'x' :: r => r
  | '0' :: 'X' :: r => r
  | s => s

/-- The unsigned part of Python int(s, base): for base 16 an optional 0x/0X
prefix, then a nonempty run of digits of the base. -/
def pyNat? (base : Nat) (s : List Char) : Option Nat :=
  let t := if base == 16 then stripHexPrefix s else s
  if t.isEmpty then none
  else if t.all (fun c => (digitVal? base c).isSome) then some (natVal base t)
  else none

/-- Sign handling of Python int(s, base), applied after whitespace strip. -/
def pyIntCore (base : Nat) : List Char → Option Int
  | [] => none
  | c :: r =>
    if c = '-' then (pyNat? base r).map (fun n => -Int.ofNat n)
    else if c = '+' then (pyNat? base r).map (fun n => Int.ofNat n)
    else (pyNat? base (c :: r)).map (fun n => Int.ofNat n)

/-- Python int(s, base) for the bases 10 and 16 used by plotter.py: optional
surrounding whitespace, optional sign, then the unsigned part.  (The
digit-group underscores Python also accepts never occur in this log format
and are not modelled.)  none models the uncaught ValueError. -/
def pyInt? (base : Nat) (s : List Char) : Option Int :=
  pyIntCore base (stripWS s)

/-- Python l[a:b] for a ≤ b. -/
def slice (l : List Char) (a b : Nat) : List Char := (l.drop a).take (b - a)

/-- The body of the for-loop in plotter.py lines 16-26 for one line l:
locate Bin[ / ] / Real= / space / Imag= / space, slice, and convert.
none models the uncaught ValueError (the spec's FormatError). -/
def parseLine (l : Line) : Option (Int × Int × Int) := do
  let ib ← firstIdx? binTok l
  let bin_start := ib + 4
  let jb ← firstIdx? rbTok (l.drop bin_start)
  let bin_end := bin_start + jb
  let b ← pyInt? 10 (slice l bin_start bin_end)
  let ir ← firstIdx? realTok l
  let real_start := ir + 5
  let jr ← firstIdx? spTok (l.drop real_start)
  let real_end := real_start + jr
  let r ← pyInt? 16 (slice l real_start real_end)
  let ii ← firstIdx? imagTok l
  let imag_start := ii + 5
  let ji ← firstIdx? spTok (l.drop imag_start)
  let imag_end := imag_start + ji
  let im ← pyInt? 16 (slice l imag_start imag_end)
  pure (b, r, im)

/-- The error taxonomy of the spec: header or blank line not located, or a
block line failed to parse. -/
inductive Err where
  | NotFoundError
  | FormatError
deriving DecidableEq

instance {ε α : Type} [DecidableEq ε] [DecidableEq α] : DecidableEq (Except ε α) := fun x y =>
  match x, y with
  | .error a, .error b =>
    if h : a = b then isTrue (h ▸ rfl) else isFalse (fun hc => h (Except.error.inj hc))
  | .error _, .ok _ => isFalse (fun hc => Except.noConfusion hc)
  | .ok _, .error _ => isFalse (fun hc => Except.noConfusion hc)
  | .ok a, .ok b =>
    if h : a = b then isTrue (h ▸ rfl) else isFalse (fun hc => h (Except.ok.inj hc))

/-- plotter.py lines 8-9: locate the header line, then the first blank line
after it, and return lines[start:end]. -/
def findBlock (lines : List Line) : Except Err (List Line) :=
  match elemIdx? headerLine lines with
  | none => .error .NotFoundError
  | some h =>
    match elemIdx? nlLine (lines.drop (h + 1)) with
    | none => .error .NotFoundError
    | some off => .ok ((lines.drop (h + 1)).take off)

/-- The loop of plotter.py lines 14-26 over the extracted block.
First component: the three lists (bins, real, imag) when every line parses,
none at the first line that fails.  Second component: the lines echoed by
print(l); each line is printed before it is parsed, so on failure the lines
up to and including the failing one were echoed. -/
def processBlockTr : List Line → Option (List Int × List Int × List Int) × List Line
  | [] => (some ([], [], []), [])
  | l :: ls =>
    match parseLine l with
    | none => (none, [l])
    | some s =>
      let p := processBlockTr ls
      (p.1.map (fun t => (s.1 :: t.1, s.2.1 :: t.2.1, s.2.2 :: t.2.2)), l :: p.2)

/-- The whole script on the in-memory line list: first component is the
outcome (the three lists handed to plt.plot, or the fatal error), second the
diagnostic echo produced by print(l). -/
def run (lines : List Line) : Except Err (List Int × List Int × List Int) × List Line :=
  match findBlock lines with
  | .error e => (.error e, [])
  | .ok block =>
    let p := processBlockTr block
    match p.1 with
    | none => (.error .FormatError, p.2)
    | some t => (.ok t, p.2)

/-- One of the six substring lookups of plotter.py lines 16-25 fails on l:
the line lacks Bin[, or the ] after it, or Real=, or the space after the
real token, or Imag=, or the space after the imag token. -/
def missingTok (l : Line) : Bool :=
  match firstIdx? binTok l with
  | none => true
  | some ib =>
    match firstIdx? rbTok (l.drop (ib + 4)) with
    | none => true
    | some _ =>
      match firstIdx? realTok l with
      | none => true
      | some ir =>
        match firstIdx? spTok (l.drop (ir + 5)) with
        | none => true
        | some _ =>
          match firstIdx? imagTok l with
          | none => true
          | some ii =>
            match firstIdx? spTok (l.drop (ii + 5)) with
            | none => true
            | some _ => false

/-- The bin field alone, by the same searches plotter.py performs for it
(each search starts from the beginning of the line). -/
def binField? (l : Line) : Option Int := do
  let ib ← firstIdx? binTok l
  let jb ← firstIdx? rbTok (l.drop (ib + 4))
  pyInt? 10 (slice l (ib + 4) (ib + 4 + jb))

/-- The real field alone, searched from the beginning of the line. -/
def realField? (l : Line) : Option Int := do
  let ir ← firstIdx? realTok l
  let jr ← firstIdx? spTok (l.drop (ir + 5))
  pyInt? 16 (slice l (ir + 5) (ir + 5 + jr))

/-- The imag field alone, searched from the beginning of the line. -/
def imagField? (l : Line) : Option Int := do
  let ii ← firstIdx? imagTok l
  let ji ← firstIdx? spTok (l.drop (ii + 5))
  pyInt? 16 (slice l (ii + 5) (ii + 5 + ji))

/-- Character of one digit value, used to re-serialize parsed numbers. -/
def digitChar (d : Nat) : Char :=
  if d < 10 then Char.ofNat ('0'.toNat + d) else Char.ofNat ('a'.toNat + (d - 10))

/-- Digit string of a natural number in the given base, most significant
digit first. -/
def natRepr (base : Nat) (n : Nat) : List Char :=
  if n = 0 then ['0'] else ((Nat.digits base n).reverse.map digitChar)

/-- Signed digit string of an integer in the given base. -/
def intRepr (base : Nat) (z : Int) : List Char :=
  if z < 0 then '-' :: natRepr base z.natAbs else natRepr base z.toNat

/-- Re-serialization of a parsed record into the token grammar: bin as
decimal digits between Bin[ and ], real and imag as hexadecimal text between
Real= / Imag= and a following space. -/
def serialize (b r i : Int) : Line :=
  binTok ++ (intRepr 10 b ++ (']' :: ' ' ::
    (realTok ++ (intRepr 16 r ++ (' ' ::
      (imagTok ++ (intRepr 16 i ++ [' ', '\n'])))))))

/-- First data line of the concrete scenario in the spec, section 8. -/
def line0 : Line := "Bin[0] Real=0x0000000A Imag=0xFFFFFFF6 \n".toList

/-- Second data line of the concrete scenario in the spec, section 8. -/
def line1 : Line := "Bin[1] Real=0x00000014 Imag=0xFFFFFFEC \n".toList

/-- The concrete scenario of the spec, section 8. -/
def demoLines : List Line := [headerLine, line0, line1, nlLine]

/-! ### Basic lemmas about the search and slicing primitives -/

theorem startsWith_append (p s : List Char) : startsWith p (p ++ s) = true := by
  induction p with
  | nil => rfl
  | cons c cs ih => simp [startsWith, ih]

theorem firstIdx?_of_startsWith {pat s : List Char} (h : startsWith pat s = true) :
    firstIdx? pat s = some 0 := by
  cases s <;> simp [firstIdx?, h]

theorem firstIdx?_append {c : Char} {p a : List Char} (b : List Char) (h : c ∉ a) :
    firstIdx? (c :: p) (a ++ b) = (firstIdx? (c :: p) b).map (· + a.length) := by
  induction a with
  | nil =>
    cases hb : firstIdx? (c :: p) b <;> simp [hb]
  | cons x t ih =>
    have hx : c ≠ x := fun hcx => h (hcx ▸ List.mem_cons_self x t)
    have hsw : startsWith (c :: p) (x :: (t ++ b)) = false := by
      simp [startsWith, beq_eq_false_iff_ne, hx]
    have ht : c ∉ t := fun hct => h (List.mem_cons_of_mem x hct)
    rw [List.cons_append, firstIdx?, hsw]
    rw [ih ht]
    cases hb : firstIdx? (c :: p) b
    · simp
    · simp [Function.comp, Nat.add_assoc]

theorem take_len {α : Type} (a b : List α) : (a ++ b).take a.length = a := by
  induction a with
  | nil => rfl
  | cons x t ih => simp [ih]

theorem drop_len {α : Type} (a b : List α) : (a ++ b).drop a.length = b := by
  induction a with
  | nil => rfl
  | cons x t ih => simp [ih]

theorem drop_succ_len {α : Type} (a : List α) (x : α) (b : List α) :
    (a ++ x :: b).drop (a.length + 1) = b := by
  induction a with
  | nil => rfl
  | cons y t ih => simp [ih]

theorem elemIdx?_append {x : Line} {pre : List Line} (rest : List Line) (h : x ∉ pre) :
    elemIdx? x (pre ++ x :: rest) = some pre.length := by
  induction pre with
  | nil => simp [elemIdx?]
  | cons y t ih =>
    have hy : y ≠ x := fun hyx => h (hyx ▸ List.mem_cons_self y t)
    have ht : x ∉ t := fun hxt => h (List.mem_cons_of_mem y hxt)
    simp [elemIdx?, hy, ih ht]

theorem elemIdx?_eq_none {x : Line} {l : List Line} (h : x ∉ l) :
    elemIdx? x l = none := by
  induction l with
  | nil => rfl
  | cons y t ih =>
    have hy : y ≠ x := fun hyx => h (hyx ▸ List.mem_cons_self y t)
    have ht : x ∉ t := fun hxt => h (List.mem_cons_of_mem y hxt)
    simp [elemIdx?, hy, ih ht]

theorem slice_add (l : List Char) (a j : Nat) : slice l a (a + j) = (l.drop a).take j := by
  simp [slice]

/-! ### Lemmas about the parsing loop -/

theorem processBlockTr_isSome {ls : List Line} (h : ∀ l ∈ ls, (parseLine l).isSome) :
    ∃ b r i, (processBlockTr ls).1 = some (b, r, i) := by
  induction ls with
  | nil => exact ⟨[], [], [], rfl⟩
  | cons l t ih =>
    have hl : (parseLine l).isSome := h l (List.mem_cons_self l t)
    obtain ⟨s, hs⟩ := Option.isSome_iff_exists.mp hl
    obtain ⟨b, r, i, hbri⟩ := ih (fun x hx => h x (List.mem_cons_of_mem l hx))
    exact ⟨s.1 :: b, s.2.1 :: r, s.2.2 :: i, by simp [processBlockTr, hs, hbri]⟩

theorem processBlockTr_none {ls : List Line} {l : Line} (hl : l ∈ ls)
    (h : parseLine l = none) : (processBlockTr ls).1 = none := by
  induction ls with
  | nil => cases hl
  | cons x t ih =>
    rcases List.mem_cons.mp hl with h1 | h1
    · subst h1; simp [processBlockTr, h]
    · cases hx : parseLine x with
      | none => simp [processBlockTr, hx]
      | some s => simp [processBlockTr, hx, ih h1]

theorem processBlockTr_spec : ∀ (ls : List Line) (b r i : List Int),
    (processBlockTr ls).1 = some (b, r, i) →
    b.length = ls.length ∧ r.length = ls.length ∧ i.length = ls.length ∧
    ∀ k, k < ls.length →
      parseLine (ls.getD k []) = some (b.getD k 0, r.getD k 0, i.getD k 0) := by
  intro ls
  induction ls with
  | nil =>
    intro b r i h
    simp [processBlockTr] at h
    obtain ⟨hb, hr, hi⟩ := h
    subst hb; subst hr; subst hi
    exact ⟨rfl, rfl, rfl, fun k hk => absurd hk (by simp)⟩
  | cons l t ih =>
    intro b r i h
    cases hl : parseLine l with
    | none => simp [processBlockTr, hl] at h
    | some s =>
      cases hp : (processBlockTr t).1 with
      | none => simp [processBlockTr, hl, hp] at h
      | some u =>
        simp [processBlockTr, hl, hp] at h
        obtain ⟨hb, hr, hi⟩ := h
        obtain ⟨hu1, hu2, hu3, hu4⟩ := ih u.1 u.2.1 u.2.2 (by rw [hp])
        subst hb; subst hr; subst hi
        refine ⟨by simp [hu1], by simp [hu2], by simp [hu3], ?_⟩
        intro k hk
        cases k with
        | zero => simp [hl]
        | succ n =>
          have hn : n < t.length := by
            simp at hk
            exact hk
          simp only [List.getD_cons_succ]
          exact hu4 n hn

/-! ### Lemmas about block extraction and the whole run -/

theorem parseLine_nl : parseLine nlLine = none := by decide

theorem findBlock_decomp (pre dataLines rest : List Line)
    (hpre : headerLine ∉ pre) (hnl : nlLine ∉ dataLines) :
    findBlock (pre ++ headerLine :: (dataLines ++ nlLine :: rest)) = .ok dataLines := by
  have h1 : elemIdx? headerLine (pre ++ headerLine :: (dataLines ++ nlLine :: rest)) =
      some pre.length := elemIdx?_append _ hpre
  have h2 : (pre ++ headerLine :: (dataLines ++ nlLine :: rest)).drop (pre.length + 1) =
      dataLines ++ nlLine :: rest := drop_succ_len _ _ _
  have h3 : elemIdx? nlLine (dataLines ++ nlLine :: rest) = some dataLines.length :=
    elemIdx?_append rest hnl
  have h4 : (dataLines ++ nlLine :: rest).take dataLines.length = dataLines :=
    take_len _ _
  simp [findBlock, h1, h2, h3, h4]

/-! ### The claims -/

/-- Claim C1: every well-formed input (a unique header line, N parseable data
lines, then a blank line) yields exactly N parsed (bin, real, imag) records,
in the order of their source lines. -/
theorem claim1_wellformed_yields_ordered_records
    (pre dataLines rest : List Line)
    (hpre : headerLine ∉ pre)
    (hparse : ∀ l ∈ dataLines, (parseLine l).isSome) :
    ∃ b r i,
      (run (pre ++ headerLine :: (dataLines ++ nlLine :: rest))).1 = .ok (b, r, i) ∧
      b.length = dataLines.length ∧ r.length = dataLines.length ∧
      i.length = dataLines.length ∧
      ∀ k, k < dataLines.length →
        parseLine (dataLines.getD k []) = some (b.getD k 0, r.getD k 0, i.getD k 0) := by
  have hnl : nlLine ∉ dataLines := by
    intro hmem
    have hsome := hparse _ hmem
    rw [parseLine_nl] at hsome
    simp at hsome
  have hfb := findBlock_decomp pre dataLines rest hpre hnl
  obtain ⟨b, r, i, hpb⟩ := processBlockTr_isSome hparse
  obtain ⟨h1, h2, h3, h4⟩ := processBlockTr_spec dataLines b r i hpb
  exact ⟨b, r, i, by simp [run, hfb, hpb], h1, h2, h3, h4⟩

theorem claim1_witness :
    (headerLine ∉ ([] : List Line)) ∧ (∀ l ∈ [line0, line1], (parseLine l).isSome) ∧
    ∃ b r i,
      (run ([] ++ headerLine :: ([line0, line1] ++ nlLine :: []))).1 = .ok (b, r, i) ∧
      b.length = [line0, line1].length ∧ r.length = [line0, line1].length ∧
      i.length = [line0, line1].length ∧
      ∀ k, k < [line0, line1].length →
        parseLine ([line0, line1].getD k []) =
          some (b.getD k 0, r.getD k 0, i.getD k 0) :=
  ⟨by decide, by decide,
    claim1_wellformed_yields_ordered_records [] [line0, line1] [] (by decide) (by decide)⟩

/-- Claim C5: an input containing no line exactly equal to the header marker
fails with NotFoundError and produces no partial output: no parsed records,
no diagnostic echo, no chart. -/
theorem claim5_header_absent_not_found
    (lines : List Line) (h : headerLine ∉ lines) :
    run lines = (.error .NotFoundError, []) := by
  simp [run, findBlock, elemIdx?_eq_none h]

theorem claim5_witness :
    (headerLine ∉ ["hello world\n".toList, "Bin[0] Real=0xA Imag=0xB \n".toList]) ∧
    run ["hello world\n".toList, "Bin[0] Real=0xA Imag=0xB \n".toList] =
      (.error .NotFoundError, []) :=
  ⟨by decide, claim5_header_absent_not_found _ (by decide)⟩

/-- Claim C4: when no line after the header equals the blank line before the
end of the file, block extraction fails with NotFoundError and the program
terminates with no parsed records, no echo and no chart. -/
theorem claim4_no_blank_terminator_not_found
    (lines : List Line) (h : Nat)
    (hh : elemIdx? headerLine lines = some h)
    (hnb : nlLine ∉ lines.drop (h + 1)) :
    run lines = (.error .NotFoundError, []) := by
  simp [run, findBlock, hh, elemIdx?_eq_none hnb]

theorem claim4_witness :
    elemIdx? headerLine [headerLine, line0] = some 0 ∧
    nlLine ∉ [headerLine, line0].drop (0 + 1) ∧
    run [headerLine, line0] = (.error .NotFoundError, []) :=
  ⟨by decide, by decide,
    claim4_no_blank_terminator_not_found [headerLine, line0] 0 (by decide) (by decide)⟩

/-- Claim C7: a header immediately followed by a blank line yields zero
records and a successful (empty) plot, not an error. -/
theorem claim7_empty_block_empty_chart
    (pre rest : List Line) (hpre : headerLine ∉ pre) :
    run (pre ++ headerLine :: nlLine :: rest) = (.ok ([], [], []), []) := by
  have hfb : findBlock (pre ++ headerLine :: nlLine :: rest) = .ok [] := by
    have h := findBlock_decomp pre [] rest hpre (by simp)
    simpa using h
  simp [run, hfb, processBlockTr]

theorem claim7_witness :
    (headerLine ∉ (["preamble\n".toList] : List Line)) ∧
    run (["preamble\n".toList] ++ headerLine :: nlLine :: ["tail\n".toList]) =
      (.ok ([], [], []), []) :=
  ⟨by decide, claim7_empty_block_empty_chart ["preamble\n".toList] ["tail\n".toList] (by decide)⟩

/-- A line lacking one of the six required tokens fails the unguarded
substring parse. -/
theorem parseLine_eq_none_of_missingTok {l : Line} (h : missingTok l = true) :
    parseLine l = none := by
  cases h1 : firstIdx? binTok l with
  | none => simp [parseLine, h1]
  | some ib =>
    cases h2 : firstIdx? rbTok (l.drop (ib + 4)) with
    | none => simp [parseLine, h1, h2]
    | some jb =>
      cases h3 : pyInt? 10 (slice l (ib + 4) (ib + 4 + jb)) with
      | none => simp [parseLine, h1, h2, h3]
      | some b =>
        cases h4 : firstIdx? realTok l with
        | none => simp [parseLine, h1, h2, h3, h4]
        | some ir =>
          cases h5 : firstIdx? spTok (l.drop (ir + 5)) with
          | none => simp [parseLine, h1, h2, h3, h4, h5]
          | some jr =>
            cases h6 : pyInt? 16 (slice l (ir + 5) (ir + 5 + jr)) with
            | none => simp [parseLine, h1, h2, h3, h4, h5, h6]
            | some r =>
              cases h7 : firstIdx? imagTok l with
              | none => simp [parseLine, h1, h2, h3, h4, h5, h6, h7]
              | some ii =>
                cases h8 : firstIdx? spTok (l.drop (ii + 5)) with
                | none => simp [parseLine, h1, h2, h3, h4, h5, h6, h7, h8]
                | some ji =>
                  exfalso
                  have hf : missingTok l = false := by
                    simp [missingTok, h1, h2, h4, h5, h7, h8]
                  rw [h] at hf
                  exact Bool.noConfusion hf

/-- Claim C2: if some line of the extracted block lacks a required token,
the run fails with FormatError and the plot call is never reached. -/
theorem claim2_missing_token_format_error
    (lines block : List Line)
    (hb : findBlock lines = .ok block)
    (hmiss : ∃ l ∈ block, missingTok l = true) :
    (run lines).1 = .error .FormatError ∧ ¬∃ t, (run lines).1 = .ok t := by
  obtain ⟨l, hl, hml⟩ := hmiss
  have hpl : parseLine l = none := parseLine_eq_none_of_missingTok hml
  have hpb : (processBlockTr block).1 = none := processBlockTr_none hl hpl
  constructor
  · simp [run, hb, hpb]
  · rintro ⟨t, ht⟩
    simp [run, hb, hpb] at ht

/-- A block line with no space after the Imag= token. -/
def badLine : Line := "Bin[0] Real=0xA Imag=0xB\n".toList

theorem claim2_witness :
    findBlock [headerLine, badLine, nlLine] = .ok [badLine] ∧
    (∃ l ∈ [badLine], missingTok l = true) ∧
    ((run [headerLine, badLine, nlLine]).1 = .error .FormatError ∧
      ¬∃ t, (run [headerLine, badLine, nlLine]).1 = .ok t) :=
  ⟨by decide, by decide,
    claim2_missing_token_format_error [headerLine, badLine, nlLine] [badLine]
      (by decide) (by decide)⟩

/-- Claim C3: a hex token with no leading minus parses to its plain
non-negative base-16 value (no width-specific reinterpretation), and the
spec's concrete scenario yields bins=[0,1], real=[10,20],
imag=[4294967286,4294967276]. -/
theorem claim3_plain_unsigned_hex_parse (s : List Char) (v : Int)
    (hp : pyInt? 16 s = some v) (hm : (stripWS s).head? ≠ some '-') :
    0 ≤ v ∧ (run demoLines).1 = .ok ([0, 1], [10, 20], [4294967286, 4294967276]) := by
  refine ⟨?_, by decide⟩
  unfold pyInt? at hp
  cases hs : stripWS s with
  | nil =>
    rw [hs] at hp
    simp [pyIntCore] at hp
  | cons c r =>
    rw [hs] at hp
    rw [hs] at hm
    simp only [List.head?_cons, ne_eq, Option.some.injEq] at hm
    simp only [pyIntCore] at hp
    rw [if_neg hm] at hp
    by_cases hc2 : c = '+'
    · rw [if_pos hc2] at hp
      cases hn : pyNat? 16 r with
      | none => rw [hn] at hp; simp at hp
      | some n =>
        rw [hn] at hp
        simp at hp
        omega
    · rw [if_neg hc2] at hp
      cases hn : pyNat? 16 (c :: r) with
      | none => rw [hn] at hp; simp at hp
      | some n =>
        rw [hn] at hp
        simp at hp
        omega

theorem claim3_witness :
    pyInt? 16 ("0xFFFFFFF6".toList) = some 4294967286 ∧
    (stripWS ("0xFFFFFFF6".toList)).head? ≠ some '-' ∧
    (0 ≤ (4294967286 : Int) ∧
      (run demoLines).1 = .ok ([0, 1], [10, 20], [4294967286, 4294967276])) :=
  ⟨by decide, by decide,
    claim3_plain_unsigned_hex_parse ("0xFFFFFFF6".toList) 4294967286 (by decide) (by decide)⟩

/-- Claim C9: whenever the plot call is reached, the three sequences have
equal length, each equal to the number of lines in the extracted block. -/
theorem claim9_parallel_lengths (lines : List Line) (b r i : List Int)
    (h : (run lines).1 = .ok (b, r, i)) :
    b.length = r.length ∧ r.length = i.length ∧
    ∃ block, findBlock lines = .ok block ∧ b.length = block.length := by
  cases hfb : findBlock lines with
  | error e => simp [run, hfb] at h
  | ok block =>
    cases hpb : (processBlockTr block).1 with
    | none => simp [run, hfb, hpb] at h
    | some t =>
      simp [run, hfb, hpb] at h
      obtain ⟨h1, h2, h3, _⟩ := processBlockTr_spec block b r i (by rw [hpb, h])
      exact ⟨by rw [h1, h2], by rw [h2, h3], block, rfl, h1⟩

theorem claim9_witness :
    (run demoLines).1 = .ok ([0, 1], [10, 20], [4294967286, 4294967276]) ∧
    (([0, 1] : List Int).length = ([10, 20] : List Int).length ∧
      ([10, 20] : List Int).length = ([4294967286, 4294967276] : List Int).length ∧
      ∃ block, findBlock demoLines = .ok block ∧ ([0, 1] : List Int).length = block.length) :=
  ⟨by decide, claim9_parallel_lengths demoLines _ _ _ (by decide)⟩

/-- A line containing all required tokens, in the order Imag, Real, Bin. -/
def outLine : Line := "Imag=f Real=a Bin[7] \n".toList

/-- Claim C10: the three fields are each searched from the beginning of the
line, independently of one another (first occurrence of each token), so a
line whose tokens appear out of the grammar order still parses. -/
theorem claim10_order_independent_searches :
    (∀ l : Line, parseLine l =
      (binField? l).bind fun b =>
        (realField? l).bind fun r => (imagField? l).map fun im => (b, r, im)) ∧
    firstIdx? imagTok outLine = some 0 ∧ firstIdx? realTok outLine = some 7 ∧
    firstIdx? binTok outLine = some 14 ∧ parseLine outLine = some (7, 10, 15) := by
  refine ⟨?_, by decide, by decide, by decide, by decide⟩
  intro l
  cases h1 : firstIdx? binTok l with
  | none => simp [parseLine, binField?, h1]
  | some ib =>
    cases h2 : firstIdx? rbTok (l.drop (ib + 4)) with
    | none => simp [parseLine, binField?, h1, h2]
    | some jb =>
      cases h3 : pyInt? 10 (slice l (ib + 4) (ib + 4 + jb)) with
      | none => simp [parseLine, binField?, h1, h2, h3]
      | some b =>
        cases h4 : firstIdx? realTok l with
        | none => simp [parseLine, binField?, realField?, h1, h2, h3, h4]
        | some ir =>
          cases h5 : firstIdx? spTok (l.drop (ir + 5)) with
          | none => simp [parseLine, binField?, realField?, h1, h2, h3, h4, h5]
          | some jr =>
            cases h6 : pyInt? 16 (slice l (ir + 5) (ir + 5 + jr)) with
            | none => simp [parseLine, binField?, realField?, h1, h2, h3, h4, h5, h6]
            | some r =>
              cases h7 : firstIdx? imagTok l with
              | none =>
                simp [parseLine, binField?, realField?, imagField?, h1, h2, h3, h4, h5, h6, h7]
              | some ii =>
                cases h8 : firstIdx? spTok (l.drop (ii + 5)) with
                | none =>
                  simp [parseLine, binField?, realField?, imagField?,
                    h1, h2, h3, h4, h5, h6, h7, h8]
                | some ji =>
                  cases h9 : pyInt? 16 (slice l (ii + 5) (ii + 5 + ji)) with
                  | none =>
                    simp [parseLine, binField?, realField?, imagField?,
                      h1, h2, h3, h4, h5, h6, h7, h8, h9]
                  | some im =>
                    simp [parseLine, binField?, realField?, imagField?,
                      h1, h2, h3, h4, h5, h6, h7, h8, h9]

theorem headerLine_eq : headerLine = hdrBody ++ nlLine := by decide

/-- Claim C6: header matching is exact-string equality; a candidate that
differs from the header only by trailing whitespace is never matched, so an
input whose only header candidate carries such whitespace fails with
NotFoundError. -/
theorem claim6_exact_header_match
    (w : List Char) (hw : w ≠ []) (_hws : ∀ c ∈ w, isWS c = true)
    (pre post : List Line) (h1 : headerLine ∉ pre) (h2 : headerLine ∉ post) :
    hdrBody ++ w ++ nlLine ≠ headerLine ∧
    (run (pre ++ (hdrBody ++ w ++ nlLine) :: post)).1 = .error .NotFoundError := by
  have hne : hdrBody ++ w ++ nlLine ≠ headerLine := by
    intro he
    have hlen := congrArg List.length he
    rw [headerLine_eq] at hlen
    simp [List.length_append] at hlen
    exact hw hlen
  have hmem : headerLine ∉ pre ++ (hdrBody ++ w ++ nlLine) :: post := by
    intro hm
    rcases List.mem_append.mp hm with hp | hp
    · exact h1 hp
    · rcases List.mem_cons.mp hp with hc | hc
      · exact hne hc.symm
      · exact h2 hc
  have hnone := elemIdx?_eq_none hmem
  simp only [List.append_assoc] at hnone
  exact ⟨hne, by simp [run, findBlock, hnone]⟩

theorem claim6_witness :
    ([' '] ≠ ([] : List Char)) ∧ (∀ c ∈ [' '], isWS c = true) ∧
    (headerLine ∉ ([] : List Line)) ∧
    (hdrBody ++ [' '] ++ nlLine ≠ headerLine ∧
      (run ([] ++ (hdrBody ++ [' '] ++ nlLine) :: [])).1 = .error .NotFoundError) :=
  ⟨by decide, by decide, by decide,
    claim6_exact_header_match [' '] (by decide) (by decide) [] [] (by decide) (by decide)⟩

/-! ### Round-trip of the numeric representations (for claim C8) -/

/-- The characters the re-serializer may emit for a digit. -/
def hexChars : List Char := "0123456789abcdef".toList

theorem digitChar_mem_hexChars (d : Nat) (hd : d < 16) : digitChar d ∈ hexChars := by
  interval_cases d <;> decide

theorem digitVal?_digitChar_16 (d : Nat) (hd : d < 16) :
    digitVal? 16 (digitChar d) = some d := by
  interval_cases d <;> decide

theorem digitVal?_digitChar_10 (d : Nat) (hd : d < 10) :
    digitVal? 10 (digitChar d) = some d := by
  interval_cases d <;> decide

theorem hexChar_not_special (c : Char) (hc : c ∈ hexChars) :
    c ≠ '-' ∧ c ≠ '+' ∧ c ≠ ']' ∧ c ≠ ' ' ∧ c ≠ 'x' ∧ c ≠ 'X' ∧
    c ≠ 'R' ∧ c ≠ 'I' ∧ isWS c = false := by
  fin_cases hc <;> decide

theorem natRepr_ne_nil (b n : Nat) : natRepr b n ≠ [] := by
  unfold natRepr
  by_cases h : n = 0
  · simp [h]
  · rw [if_neg h]
    intro hc
    have h1 : (Nat.digits b n).reverse = [] := by
      cases hrev : (Nat.digits b n).reverse with
      | nil => rfl
      | cons a t => rw [hrev] at hc; simp at hc
    have h2 : Nat.digits b n = [] := by
      cases hdig : Nat.digits b n with
      | nil => rfl
      | cons a t => rw [hdig] at h1; simp at h1
    exact Nat.digits_ne_nil_iff_ne_zero.mpr h h2

theorem natRepr_chars (b n : Nat) (hb : 1 < b) :
    ∀ c ∈ natRepr b n, ∃ d, d < b ∧ c = digitChar d := by
  intro c hc
  unfold natRepr at hc
  by_cases h : n = 0
  · rw [if_pos h] at hc
    simp at hc
    exact ⟨0, by omega, by rw [hc]; rfl⟩
  · rw [if_neg h] at hc
    obtain ⟨d, hd, hdc⟩ := List.mem_map.mp hc
    exact ⟨d, Nat.digits_lt_base hb (List.mem_reverse.mp hd), hdc.symm⟩

theorem natRepr_mem_hexChars (b n : Nat) (hb : b = 10 ∨ b = 16) :
    ∀ c ∈ natRepr b n, c ∈ hexChars := by
  intro c hc
  have hb1 : 1 < b := by rcases hb with h | h <;> omega
  obtain ⟨d, hd, hdc⟩ := natRepr_chars b n hb1 c hc
  rw [hdc]
  exact digitChar_mem_hexChars d (by rcases hb with h | h <;> omega)

theorem intRepr_mem (b : Nat) (z : Int) (hb : b = 10 ∨ b = 16) :
    ∀ c ∈ intRepr b z, c ∈ '-' :: hexChars := by
  intro c hc
  unfold intRepr at hc
  by_cases h : z < 0
  · rw [if_pos h] at hc
    rcases List.mem_cons.mp hc with h1 | h1
    · rw [h1]; exact List.mem_cons_self _ _
    · exact List.mem_cons_of_mem _ (natRepr_mem_hexChars b _ hb c h1)
  · rw [if_neg h] at hc
    exact List.mem_cons_of_mem _ (natRepr_mem_hexChars b _ hb c hc)

theorem foldl_digits (b : Nat) (hb : b = 10 ∨ b = 16) :
    ∀ (L : List Nat) (a : Nat), (∀ d ∈ L, d < b) →
      List.foldl (fun acc c => acc * b + (digitVal? b c).getD 0) a (L.reverse.map digitChar) =
        a * b ^ L.length + Nat.ofDigits b L := by
  intro L
  induction L with
  | nil =>
    intro a _
    simp [Nat.ofDigits_nil]
  | cons d t ih =>
    intro a hall
    have hd : d < b := hall d (List.mem_cons_self d t)
    have hdv : (digitVal? b (digitChar d)).getD 0 = d := by
      rcases hb with h | h <;> subst h
      · rw [digitVal?_digitChar_10 d hd]; rfl
      · rw [digitVal?_digitChar_16 d hd]; rfl
    have hrw : (d :: t).reverse.map digitChar =
        (t.reverse.map digitChar) ++ [digitChar d] := by
      simp
    rw [hrw, List.foldl_append, ih a (fun x hx => hall x (List.mem_cons_of_mem d hx))]
    simp only [List.foldl_cons, List.foldl_nil, hdv, Nat.ofDigits_cons, List.length_cons]
    ring

theorem natVal_natRepr (b n : Nat) (hb : b = 10 ∨ b = 16) :
    natVal b (natRepr b n) = n := by
  unfold natVal natRepr
  by_cases h : n = 0
  · subst h
    rw [if_pos rfl]
    rcases hb with h | h <;> subst h <;> decide
  · rw [if_neg h]
    have hb1 : 1 < b := by rcases hb with h' | h' <;> omega
    have hall : ∀ d ∈ Nat.digits b n, d < b := fun d hd => Nat.digits_lt_base hb1 hd
    rw [foldl_digits b hb (Nat.digits b n) 0 hall]
    simp [Nat.ofDigits_digits]

theorem dropWhile_eq_self_of (p : Char → Bool) (s : List Char)
    (h : ∀ c ∈ s, p c = false) : s.dropWhile p = s := by
  cases s with
  | nil => rfl
  | cons c t =>
    rw [List.dropWhile_cons, h c (List.mem_cons_self c t)]
    simp

theorem stripWS_eq_self (s : List Char) (h : ∀ c ∈ s, isWS c = false) :
    stripWS s = s := by
  unfold stripWS
  rw [dropWhile_eq_self_of _ _ h]
  rw [dropWhile_eq_self_of _ _ (fun c hc => h c (List.mem_reverse.mp hc))]
  exact List.reverse_reverse s

theorem stripHexPrefix_eq_self (s : List Char) (h : ∀ c ∈ s, c ≠ 'x' ∧ c ≠ 'X') :
    stripHexPrefix s = s := by
  unfold stripHexPrefix
  split
  · exact absurd rfl (h 'x' (by simp)).1
  · exact absurd rfl (h 'X' (by simp)).2
  · rfl

theorem pyNat?_natRepr (b n : Nat) (hb : b = 10 ∨ b = 16) :
    pyNat? b (natRepr b n) = some n := by
  have hhex := natRepr_mem_hexChars b n hb
  have hstrip : (if b == 16 then stripHexPrefix (natRepr b n) else natRepr b n) =
      natRepr b n := by
    rcases hb with h | h <;> subst h
    · rfl
    · simp only [beq_self_eq_true, if_true]
      refine stripHexPrefix_eq_self _ (fun c hc => ?_)
      have hs := hexChar_not_special c (hhex c hc)
      exact ⟨hs.2.2.2.2.1, hs.2.2.2.2.2.1⟩
  have hne := natRepr_ne_nil b n
  have hemp : (natRepr b n).isEmpty = false := by
    cases hrep : natRepr b n with
    | nil => exact absurd hrep hne
    | cons => rfl
  have hall : (natRepr b n).all (fun c => (digitVal? b c).isSome) = true := by
    rw [List.all_eq_true]
    intro c hc
    have hb1 : 1 < b := by rcases hb with h | h <;> omega
    obtain ⟨d, hd, hdc⟩ := natRepr_chars b n hb1 c hc
    rw [hdc]
    rcases hb with h | h <;> subst h
    · rw [digitVal?_digitChar_10 d hd]; rfl
    · rw [digitVal?_digitChar_16 d hd]; rfl
  simp only [pyNat?]
  rw [hstrip, hemp, hall]
  simp [natVal_natRepr b n hb]

theorem pyInt?_intRepr (b : Nat) (z : Int) (hb : b = 10 ∨ b = 16) :
    pyInt? b (intRepr b z) = some z := by
  have hmem := intRepr_mem b z hb
  have hws : ∀ c ∈ intRepr b z, isWS c = false := by
    intro c hc
    rcases List.mem_cons.mp (hmem c hc) with h1 | h1
    · rw [h1]; rfl
    · exact (hexChar_not_special c h1).2.2.2.2.2.2.2.2
  unfold pyInt?
  rw [stripWS_eq_self _ hws]
  unfold intRepr
  by_cases h : z < 0
  · rw [if_pos h]
    simp only [pyIntCore, if_pos rfl]
    rw [pyNat?_natRepr b _ hb]
    have hz0 : -((z.natAbs : Int)) = z := by omega
    have hz : -Int.ofNat z.natAbs = z := hz0
    have hmap : Option.map (fun n : Nat => -Int.ofNat n) (some z.natAbs) =
        some (-Int.ofNat z.natAbs) := rfl
    rw [hmap, hz]
    simp
  · rw [if_neg h]
    cases hrep : natRepr b z.toNat with
    | nil => exact absurd hrep (natRepr_ne_nil b z.toNat)
    | cons c r =>
      have hc : c ∈ hexChars :=
        natRepr_mem_hexChars b z.toNat hb c (by rw [hrep]; exact List.mem_cons_self c r)
      have hspec := hexChar_not_special c hc
      simp only [pyIntCore]
      rw [if_neg hspec.1, if_neg hspec.2.1]
      rw [← hrep, pyNat?_natRepr b _ hb]
      have hz0 : ((z.toNat : Int)) = z := by omega
      have hz : Int.ofNat z.toNat = z := hz0
      have hmap : Option.map (fun n : Nat => Int.ofNat n) (some z.toNat) =
          some (Int.ofNat z.toNat) := rfl
      rw [hmap, hz]

theorem optBind_some {α β : Type} (a : α) (f : α → Option β) :
    ((some a : Option α) >>= f) = f a := rfl

theorem optPure_eq {α : Type} (a : α) : (pure a : Option α) = some a := rfl

/-- Parsing a re-serialized record recovers the record. -/
theorem parseLine_serialize (b r i : Int) :
    parseLine (serialize b r i) = some (b, r, i) := by
  generalize hD : intRepr 10 b = D
  generalize hH1 : intRepr 16 r = H1
  generalize hH2 : intRepr 16 i = H2
  have hDm : ∀ c ∈ D, c ∈ '-' :: hexChars := by
    rw [← hD]; exact intRepr_mem 10 b (Or.inl rfl)
  have hH1m : ∀ c ∈ H1, c ∈ '-' :: hexChars := by
    rw [← hH1]; exact intRepr_mem 16 r (Or.inr rfl)
  have hH2m : ∀ c ∈ H2, c ∈ '-' :: hexChars := by
    rw [← hH2]; exact intRepr_mem 16 i (Or.inr rfl)
  have hDrb : ']' ∉ D := fun hc => absurd (hDm ']' hc) (by decide)
  have hDR : 'R' ∉ D := fun hc => absurd (hDm 'R' hc) (by decide)
  have hDI : 'I' ∉ D := fun hc => absurd (hDm 'I' hc) (by decide)
  have hH1sp : ' ' ∉ H1 := fun hc => absurd (hH1m ' ' hc) (by decide)
  have hH1I : 'I' ∉ H1 := fun hc => absurd (hH1m 'I' hc) (by decide)
  have hH2sp : ' ' ∉ H2 := fun hc => absurd (hH2m ' ' hc) (by decide)
  have hpb : pyInt? 10 D = some b := by
    rw [← hD]; exact pyInt?_intRepr 10 b (Or.inl rfl)
  have hpr : pyInt? 16 H1 = some r := by
    rw [← hH1]; exact pyInt?_intRepr 16 r (Or.inr rfl)
  have hpi : pyInt? 16 H2 = some i := by
    rw [← hH2]; exact pyInt?_intRepr 16 i (Or.inr rfl)
  have hl : serialize b r i = binTok ++ (D ++ (']' :: ' ' ::
      (realTok ++ (H1 ++ (' ' :: (imagTok ++ (H2 ++ [' ', '\n']))))))) := by
    unfold serialize
    rw [hD, hH1, hH2]
  have hassoc : serialize b r i = ((binTok ++ D) ++ [']', ' ']) ++
      (realTok ++ (H1 ++ (' ' :: (imagTok ++ (H2 ++ [' ', '\n']))))) := by
    rw [hl]; simp [List.append_assoc]
  have hassoc2 : serialize b r i = (((binTok ++ D) ++ [']', ' ']) ++ realTok) ++
      (H1 ++ (' ' :: (imagTok ++ (H2 ++ [' ', '\n'])))) := by
    rw [hl]; simp [List.append_assoc]
  have hassoc3 : serialize b r i =
      ((((((binTok ++ D) ++ [']', ' ']) ++ realTok) ++ H1) ++ [' ']) ++
        (imagTok ++ (H2 ++ [' ', '\n']))) := by
    rw [hl]; simp [List.append_assoc]
  have hassoc4 : serialize b r i =
      (((((((binTok ++ D) ++ [']', ' ']) ++ realTok) ++ H1) ++ [' ']) ++ imagTok) ++
        (H2 ++ [' ', '\n'])) := by
    rw [hl]; simp [List.append_assoc]
  have hRA1 : 'R' ∉ (binTok ++ D) ++ ([']', ' '] : List Char) := by
    intro hc
    rcases List.mem_append.mp hc with h' | h'
    · rcases List.mem_append.mp h' with h'' | h''
      · exact absurd h'' (by decide)
      · exact hDR h''
    · exact absurd h' (by decide)
  have hIA2 : 'I' ∉ ((((binTok ++ D) ++ ([']', ' '] : List Char)) ++ realTok) ++ H1)
      ++ ([' '] : List Char) := by
    intro hc
    rcases List.mem_append.mp hc with h' | h'
    · rcases List.mem_append.mp h' with h'' | h''
      · rcases List.mem_append.mp h'' with h3 | h3
        · rcases List.mem_append.mp h3 with h4 | h4
          · rcases List.mem_append.mp h4 with h5 | h5
            · exact absurd h5 (by decide)
            · exact hDI h5
          · exact absurd h4 (by decide)
        · exact absurd h3 (by decide)
      · exact hH1I h''
    · exact absurd h' (by decide)
  have h1 : firstIdx? binTok (serialize b r i) = some 0 := by
    rw [hl]; exact firstIdx?_of_startsWith (startsWith_append binTok _)
  have h2 : (serialize b r i).drop 4 = D ++ (']' :: ' ' ::
      (realTok ++ (H1 ++ (' ' :: (imagTok ++ (H2 ++ [' ', '\n'])))))) := by
    rw [hl, show (4 : Nat) = binTok.length from rfl]
    exact drop_len _ _
  have h3 : firstIdx? rbTok (D ++ (']' :: ' ' ::
      (realTok ++ (H1 ++ (' ' :: (imagTok ++ (H2 ++ [' ', '\n']))))))) = some D.length := by
    rw [show rbTok = ']' :: ([] : List Char) from rfl, firstIdx?_append _ hDrb,
      firstIdx?_of_startsWith (by simp [startsWith])]
    simp
  have hslice1 : slice (serialize b r i) 4 (4 + D.length) = D := by
    rw [slice_add, h2, take_len]
  have h4 : firstIdx? realTok (serialize b r i) =
      some ((binTok ++ D) ++ ([']', ' '] : List Char)).length := by
    rw [hassoc, show realTok = 'R' :: "eal=".toList from rfl, firstIdx?_append _ hRA1,
      firstIdx?_of_startsWith (startsWith_append _ _)]
    simp
  have h5 : (serialize b r i).drop (((binTok ++ D) ++ ([']', ' '] : List Char)).length + 5) =
      H1 ++ (' ' :: (imagTok ++ (H2 ++ [' ', '\n']))) := by
    have hlen : (((binTok ++ D) ++ ([']', ' '] : List Char)) ++ realTok).length =
        ((binTok ++ D) ++ ([']', ' '] : List Char)).length + 5 := by
      rw [List.length_append]
      rfl
    rw [hassoc2, ← hlen]
    exact drop_len _ _
  have h6 : firstIdx? spTok (H1 ++ (' ' :: (imagTok ++ (H2 ++ [' ', '\n'])))) =
      some H1.length := by
    rw [show spTok = ' ' :: ([] : List Char) from rfl, firstIdx?_append _ hH1sp,
      firstIdx?_of_startsWith (by simp [startsWith])]
    simp
  have hslice2 : slice (serialize b r i)
      (((binTok ++ D) ++ ([']', ' '] : List Char)).length + 5)
      (((binTok ++ D) ++ ([']', ' '] : List Char)).length + 5 + H1.length) = H1 := by
    rw [slice_add, h5, take_len]
  have h7 : firstIdx? imagTok (serialize b r i) =
      some (((((binTok ++ D) ++ ([']', ' '] : List Char)) ++ realTok) ++ H1)
        ++ ([' '] : List Char)).length := by
    rw [hassoc3, show imagTok = 'I' :: "mag=".toList from rfl, firstIdx?_append _ hIA2,
      firstIdx?_of_startsWith (startsWith_append _ _)]
    simp
  have h8 : (serialize b r i).drop
      ((((((binTok ++ D) ++ ([']', ' '] : List Char)) ++ realTok) ++ H1)
        ++ ([' '] : List Char)).length + 5) = H2 ++ [' ', '\n'] := by
    have hlen : ((((((binTok ++ D) ++ ([']', ' '] : List Char)) ++ realTok) ++ H1)
        ++ ([' '] : List Char)) ++ imagTok).length =
        (((((binTok ++ D) ++ ([']', ' '] : List Char)) ++ realTok) ++ H1)
          ++ ([' '] : List Char)).length + 5 := by
      rw [List.length_append]
      rfl
    rw [hassoc4, ← hlen]
    exact drop_len _ _
  have h9 : firstIdx? spTok (H2 ++ [' ', '\n']) = some H2.length := by
    rw [show spTok = ' ' :: ([] : List Char) from rfl, firstIdx?_append _ hH2sp,
      firstIdx?_of_startsWith (by simp [startsWith])]
    simp
  have hslice3 : slice (serialize b r i)
      ((((((binTok ++ D) ++ ([']', ' '] : List Char)) ++ realTok) ++ H1)
        ++ ([' '] : List Char)).length + 5)
      ((((((binTok ++ D) ++ ([']', ' '] : List Char)) ++ realTok) ++ H1)
        ++ ([' '] : List Char)).length + 5 + H2.length) = H2 := by
    rw [slice_add, h8, take_len]
  simp only [parseLine, optBind_some, optPure_eq, Nat.zero_add, h1, h2, h3, hslice1, hpb,
    h4, h5, h6, hslice2, hpr, h7, h8, h9, hslice3, hpi]

/-- Claim C8: re-serializing a parsed FFTSample into the token grammar and
re-parsing with the same line parser yields the identical triple. -/
theorem claim8_roundtrip_token_grammar (l : Line) (b r i : Int)
    (_h : parseLine l = some (b, r, i)) :
    parseLine (serialize b r i) = some (b, r, i) :=
  parseLine_serialize b r i

theorem claim8_witness :
    parseLine line0 = some (0, 10, 4294967286) ∧
    parseLine (serialize 0 10 4294967286) = some (0, 10, 4294967286) :=
  ⟨by decide, claim8_roundtrip_token_grammar line0 0 10 4294967286 (by decide)⟩

end FFTPlotter
